import Mathlib

/-!
Verification development for the number-guessing game and its companion
report builder.

The Python sources are shallowly embedded:
* `GuessingGame` mirrors the class of the same name in `guessing_game.py`;
  console I/O becomes explicit data (a list of parsed input attempts, a
  list of emitted messages), and `random.randint` becomes a function of an
  arbitrary seed that realises any value in the requested range.
* The report builder of `documentation_generator.py` is embedded with file
  text as a list of lines (each a `List Char`, newline-free), the regex
  `r"#(.+)"` as a per-line scan, the Python `ast` docstring walk as a
  function on a small syntax-tree type, and the filesystem as a map from
  paths to optional contents.
-/

/-- State of `GuessingGame` (`guessing_game.py`, `__init__`): the guessing
range together with the two counters.  Python integers are embedded as `Int`. -/
structure GuessingGame where
  min_range : Int
  max_range : Int
  total_games : Int
  wins : Int
  deriving Repr, DecidableEq

namespace GuessingGame

/-- Embeds `GuessingGame.__init__`: `min_range = 1`, `max_range = 5`, counters zero. -/
def init : GuessingGame := ⟨1, 5, 0, 0⟩

/-- Embeds `generate_random_number`: `random.randint(self.min_range, self.max_range)`.
The library draw is embedded as a function of an arbitrary seed; as the seed
ranges over `Nat` the result realises exactly the values
`min_range, …, max_range` (for a nonempty range). -/
def generate_random_number (g : GuessingGame) (seed : Nat) : Int :=
  g.min_range + (seed : Int) % (g.max_range - g.min_range + 1)

/-- Embeds `check_guess`: `return user_guess == secret_number`. -/
def check_guess (g : GuessingGame) (user_guess secret_number : Int) : Bool :=
  user_guess == secret_number

/-- One attempt typed at the guess prompt, after Python's `int()` call:
`some n` when the text parses as the integer `n`, `none` on `ValueError`. -/
abbrev GuessInput := Option Int

/-- The two error messages `get_user_guess` can print, with the values the
code interpolates into them.  `outOfRange` stands for
`"Enter a number between {min} and {max}."` and `invalidNumber` for
`"Invalid input! Please enter a valid number."`. -/
inductive GuessMsg where
  | outOfRange (lo hi : Int)
  | invalidNumber
  deriving Repr, DecidableEq

/-- Embeds `get_user_guess`: loop over the typed attempts until one parses as an
integer within `[min_range, max_range]`; each rejected attempt emits its
message.  The Python loop blocks forever waiting for input, so the
embedding returns `none` when the finite attempt list is exhausted. -/
def get_user_guess (g : GuessingGame) : List GuessInput → Option (Int × List GuessMsg)
  | [] => none
  | some n :: rest =>
      if g.min_range ≤ n ∧ n ≤ g.max_range then
        some (n, [])
      else
        (get_user_guess g rest).map
          (fun r => (r.1, GuessMsg.outOfRange g.min_range g.max_range :: r.2))
  | none :: rest =>
      (get_user_guess g rest).map (fun r => (r.1, GuessMsg.invalidNumber :: r.2))

/-- The console inputs consumed by one call of `play_round`: the seed behind
the secret draw and the attempts typed at the guess prompt. -/
structure RoundInput where
  seed : Nat
  inputs : List GuessInput
  deriving Repr

/-- Embeds `play_round`: draw the secret, collect a validated guess, compare, and
update the counters (`wins += 1` on success, `total_games += 1` always).
If the attempt list runs dry the real loop is still blocked inside
`get_user_guess`, so no counter has been touched: the state is returned
unchanged. -/
def play_round (g : GuessingGame) (r : RoundInput) : GuessingGame :=
  let secret_number := g.generate_random_number r.seed
  match g.get_user_guess r.inputs with
  | none => g
  | some (user_guess, _) =>
      if g.check_guess user_guess secret_number then
        { g with wins := g.wins + 1, total_games := g.total_games + 1 }
      else
        { g with total_games := g.total_games + 1 }

/-- The round described by `r` runs to completion from state `g`: the guess
prompt eventually receives a valid guess. -/
def roundCompleted (g : GuessingGame) (r : RoundInput) : Bool :=
  (g.get_user_guess r.inputs).isSome

/-- The round described by `r`, started from state `g`, is won: the
validated guess equals the drawn secret. -/
def roundWon (g : GuessingGame) (r : RoundInput) : Bool :=
  match g.get_user_guess r.inputs with
  | none => false
  | some (user_guess, _) => g.check_guess user_guess (g.generate_random_number r.seed)

/-- A sequence of rounds, played left to right. -/
def runRounds (g : GuessingGame) (rs : List RoundInput) : GuessingGame :=
  rs.foldl play_round g

/-- What `display_statistics` prints, as data.  `win_percentage` is the
value of the Python expression `(self.wins / self.total_games) * 100`
(true division, embedded in `ℚ`), or the literal `0` printed by the
`else` branch when no games were played. -/
structure StatsOutput where
  totalGames : Int
  gamesWon : Int
  gamesLost : Int
  winPercentage : ℚ
  deriving Repr

/-- Embeds `display_statistics`: reads the counters and prints; it assigns no
attribute, so the state component of the result is the input state. -/
def display_statistics (g : GuessingGame) : GuessingGame × StatsOutput :=
  (g,
   { totalGames := g.total_games
     gamesWon := g.wins
     gamesLost := g.total_games - g.wins
     winPercentage :=
       if g.total_games > 0 then ((g.wins : ℚ) / (g.total_games : ℚ)) * 100 else 0 })

/-- One iteration of the `show_menu` loop: dispatch on the stripped choice
string.  Returns the new state and `true` when the loop `break`s
(choice `"3"`).  Choice `"1"` consumes the round input `r`. -/
def menuStep (g : GuessingGame) (choice : String) (r : RoundInput) :
    GuessingGame × Bool :=
  if choice = "1" then (g.play_round r, false)
  else if choice = "2" then ((g.display_statistics).1, false)
  else if choice = "3" then (g, true)
  else (g, false)

/-- The data-model invariant `0 ≤ wins ≤ gamesPlayed`. -/
def Inv (g : GuessingGame) : Prop :=
  0 ≤ g.wins ∧ g.wins ≤ g.total_games

instance (g : GuessingGame) : Decidable (Inv g) := by
  unfold Inv; infer_instance

end GuessingGame

/-! ## Report builder (`documentation_generator.py`)

File text is a list of lines; a line is a newline-free `List Char`. -/

/-- A single line of source text, without its terminating newline. -/
abbrev Line := List Char

/-- The contribution of one line to `re.findall(r"#(.+)", content)`: since
`.` does not match a newline, each line yields at most one match, starting
at its first `#` that is followed by at least one character, and capturing
everything after that `#` to the end of the line. -/
def lineComment (l : Line) : Option Line :=
  match l.findIdx? (· = '#') with
  | none => none
  | some i => if i + 1 < l.length then some (l.drop (i + 1)) else none

/-- Embeds `re.findall(r"#(.+)", content)` over the whole file text
(`parse_python_file`, the `comment_pattern` step). -/
def findComments (content : List Line) : List Line :=
  content.filterMap lineComment

/-- Python `str.strip()`: drop whitespace from both ends
(`create_comments_section` applies it to each comment). -/
def pyStrip (l : Line) : Line :=
  ((l.dropWhile Char.isWhitespace).reverse.dropWhile Char.isWhitespace).reverse

/-- Embeds `inspect.cleandoc`, as applied by `ast.get_docstring`, restricted to the
single-line docstrings this embedding renders: leading whitespace of the
first line is removed (a fully blank docstring becomes empty). -/
def pyCleandoc (d : Line) : Line :=
  d.dropWhile Char.isWhitespace

/-- One entry of the `docstrings` list built in `parse_python_file`:
`type(node).__name__`, `getattr(node, "name", "Module")`, and the cleaned
docstring. -/
structure DocEntry where
  typeName : String
  name : Line
  docstring : Line
  deriving Repr, DecidableEq

/-- One node yielded by `ast.walk` that passes the
`isinstance(node, (ast.FunctionDef, ast.ClassDef, ast.Module))` test,
carrying its name and its docstring when it has one. -/
inductive PyNode where
  | moduleNode (doc : Option Line)
  | classNode (name : Line) (doc : Option Line)
  | funcNode (name : Line) (doc : Option Line)
  deriving Repr, DecidableEq

/-- The syntax tree produced by `ast.parse`, embedded as the sequence of
module/class/function nodes in the order `ast.walk` yields them
(breadth-first from the `Module` node). -/
structure PyTree where
  nodes : List PyNode
  deriving Repr, DecidableEq

/-- The `for node in ast.walk(tree)` loop of `parse_python_file`: collect a
`DocEntry` for every module/class/function node whose `ast.get_docstring`
is not `None`. -/
def docstringsOf (tree : PyTree) : List DocEntry :=
  tree.nodes.filterMap fun n =>
    match n with
    | .moduleNode doc => doc.map fun d => ⟨"Module", "Module".data, pyCleandoc d⟩
    | .classNode name doc => doc.map fun d => ⟨"ClassDef", name, pyCleandoc d⟩
    | .funcNode name doc => doc.map fun d => ⟨"FunctionDef", name, pyCleandoc d⟩

/-- One element of `self.comments_data`. -/
structure FileData where
  file_path : String
  comments : List Line
  docstrings : List DocEntry
  deriving Repr, DecidableEq

/-- One input file as `parse_python_file` experiences it: the read may
raise, `ast.parse` may raise, or both succeed and deliver the text and its
tree. -/
inductive FileInput where
  | unreadable (path : String)
  | unparsable (path : String) (content : List Line)
  | wellformed (path : String) (content : List Line) (tree : PyTree)
  deriving Repr, DecidableEq

/-- The path of an input file. -/
def FileInput.path : FileInput → String
  | .unreadable p => p
  | .unparsable p _ => p
  | .wellformed p _ _ => p

/-- The source file read or parsed with an error. -/
def FileInput.failed : FileInput → Bool
  | .wellformed _ _ _ => false
  | _ => true

/-- Embeds `parse_python_file`: on success append one complete record to
`self.comments_data`; a read or parse failure is caught by the
`except` clause, which prints the error and appends nothing (the `append`
is the last statement of the `try` block, after everything fallible). -/
def parse_python_file (data : List FileData) (f : FileInput) :
    List FileData × List String :=
  match f with
  | .wellformed p c t => (data ++ [⟨p, findComments c, docstringsOf t⟩], [])
  | .unreadable p => (data, ["Error parsing file " ++ p])
  | .unparsable p _ => (data, ["Error parsing file " ++ p])

/-- Successive `parse_python_file` calls, as `main` performs them. -/
def processFiles (data : List FileData) : List FileInput → List FileData × List String
  | [] => (data, [])
  | f :: rest =>
      let step := parse_python_file data f
      let recur := processFiles step.1 rest
      (recur.1, step.2 ++ recur.2)

/-- The record a single file contributes when it succeeds. -/
def entryOf : FileInput → Option FileData
  | .wellformed p c t => some ⟨p, findComments c, docstringsOf t⟩
  | _ => none

/-- A flattened block of the generated Word document: a heading with its
level, a paragraph given as its list of runs, or a page break. -/
inductive DocBlock where
  | heading (level : Nat) (text : String)
  | para (runs : List String)
  | pageBreak
  deriving Repr, DecidableEq

/-- Embeds `create_title_page`; `now` is `datetime.now().strftime(...)`. -/
def create_title_page (now : String) : List DocBlock :=
  [.heading 0 "Python Guessing Game Documentation",
   .para [],
   .para ["Generated on: ", now, "\nAuthor: ", "Python Developer",
          "\nVersion: ", "1.0"],
   .pageBreak]

/-- Embeds `create_table_of_contents`. -/
def create_table_of_contents : List DocBlock :=
  [.heading 1 "Table of Contents",
   .para ["1. Introduction\n", "2. File Documentation\n",
          "3. Class and Function Documentation\n", "4. Code Comments\n"],
   .pageBreak]

/-- Embeds `create_introduction`. -/
def create_introduction : List DocBlock :=
  [.heading 1 "1. Introduction",
   .para ["This document contains automatically generated documentation ",
          "for the Python Guessing Game application. The documentation ",
          "includes code comments, docstrings, and function descriptions ",
          "extracted directly from the source code."],
   .para [],
   .para ["Key Features:", "\n• Number guessing game with range 1-5",
          "\n• Statistics tracking", "\n• Input validation",
          "\n• Automated documentation generation"]]

/-- Embeds `create_file_documentation`: per parsed file, a heading
and the module-level docstrings. -/
def create_file_docs (data : List FileData) : List DocBlock :=
  DocBlock.heading 1 "2. File Documentation" ::
    data.flatMap fun fd =>
      DocBlock.heading 2 ("File: " ++ fd.file_path) ::
        fd.docstrings.filterMap fun e =>
          if e.typeName = "Module" then
            some (.para ["Module Documentation:", "\n" ++ String.mk e.docstring])
          else none

/-- Embeds `create_class_function_docs`: per parsed file, a heading and paragraph
for every class or function docstring entry. -/
def create_class_function_docs (data : List FileData) : List DocBlock :=
  DocBlock.heading 1 "3. Class and Function Documentation" ::
    data.flatMap fun fd =>
      fd.docstrings.flatMap fun e =>
        if e.typeName = "ClassDef" ∨ e.typeName = "FunctionDef" then
          [.heading 3 (e.typeName ++ ": " ++ String.mk e.name),
           .para [String.mk e.docstring],
           .para []]
        else []

/-- Embeds `create_comments_section`: per parsed file, a heading, then each
extracted comment numbered from 1 with its text passed through
`str.strip()`, or a placeholder paragraph when the file has none. -/
def create_comments_section (data : List FileData) : List DocBlock :=
  DocBlock.heading 1 "4. Code Comments" ::
    data.flatMap fun fd =>
      DocBlock.heading 2 ("Comments from " ++ fd.file_path) ::
        (if fd.comments.isEmpty then
          [DocBlock.para ["No comments found in this file."]]
        else
          fd.comments.enum.map fun p =>
            DocBlock.para ["Comment " ++ toString (p.1 + 1) ++ ": ",
                           String.mk (pyStrip p.2)])

/-- The complete document assembled by `generate_documentation`, in its
fixed section order. -/
def renderReport (now : String) (data : List FileData) : List DocBlock :=
  create_title_page now ++ create_table_of_contents ++ create_introduction ++
    create_file_docs data ++ create_class_function_docs data ++
    create_comments_section data

/-- The filesystem, as the report builder touches it: a map from paths to
the document stored there, if any. -/
def FS : Type := String → Option (List DocBlock)

/-- Embeds `cleanup_old_documentation`: when a file exists at
`output_file`, attempt `os.remove` (the oracle `deleteOk` says whether it
raises); a failure is only warned about. -/
def cleanup_old_docs (fs : FS) (deleteOk : Bool) (output_file : String) :
    FS × List String :=
  match fs output_file with
  | some _ =>
      if deleteOk then
        (fun p => if p = output_file then none else fs p,
         ["Deleted old documentation: " ++ output_file])
      else
        (fs, ["Warning: Could not delete old documentation"])
  | none => (fs, ["No old documentation found. Creating new file."])

/-- Embeds `generate_documentation`: clean up the old output file,
assemble the sections, and save the document at `output_file`
(`doc.save` overwrites whatever is there). -/
def generate_docs (fs : FS) (deleteOk : Bool) (data : List FileData)
    (now : String) (output_file : String) : FS × List String :=
  let cleaned := cleanup_old_docs fs deleteOk output_file
  let report := renderReport now data
  ((fun p => if p = output_file then some report else cleaned.1 p),
   "Starting documentation generation..." :: cleaned.2 ++
     ["Documentation generated successfully: " ++ output_file,
      "Total files processed: " ++ toString data.length,
      "Total comments extracted: " ++
        toString (data.map (fun fd => fd.comments.length)).sum,
      "Total docstrings extracted: " ++
        toString (data.map (fun fd => fd.docstrings.length)).sum])

/-! ### A renderable fragment of Python source

`ast.parse` itself is Python-library code; to relate the comment scan (over
raw text) and the docstring walk (over the tree) on one and the same input,
a small source grammar is rendered to text, and its `ast.parse` image is
written down directly. -/

/-- A top-level item of the source fragment: a one-line `def` with a
single-line docstring, a full-line comment `#text`, or any other line. -/
inductive SrcItem where
  | funcItem (name : Line) (doc : Line)
  | commentItem (text : Line)
  | codeItem (l : Line)
  deriving Repr, DecidableEq

/-- A source file of the fragment: an optional module docstring followed by
top-level items. -/
structure SrcFile where
  moduleDoc : Option Line
  items : List SrcItem
  deriving Repr, DecidableEq

/-- A single-line triple-quoted docstring literal. -/
def renderDocLine (d : Line) : Line :=
  '"' :: '"' :: '"' :: (d ++ ['"', '"', '"'])

/-- The lines of one item. -/
def renderItem : SrcItem → List Line
  | .funcItem name doc =>
      ["def ".data ++ name ++ "():".data, "    ".data ++ renderDocLine doc]
  | .commentItem t => ['#' :: t]
  | .codeItem l => [l]

/-- The text of a fragment file. -/
def renderFile (f : SrcFile) : List Line :=
  (match f.moduleDoc with | some d => [renderDocLine d] | none => []) ++
    f.items.flatMap renderItem

/-- Embeds `ast.parse` on the fragment: the module node first, then the function
nodes in order, exactly as `ast.walk` yields them for this flat grammar. -/
def astOfSrc (f : SrcFile) : PyTree :=
  ⟨.moduleNode f.moduleDoc ::
    f.items.filterMap fun it =>
      match it with
      | .funcItem name doc => some (.funcNode name (some doc))
      | _ => none⟩

/-- The number of occurrences of `#` followed by at least one character on
the line. -/
def hashOcc (l : Line) : Nat :=
  ((List.range l.length).filter fun i =>
    decide (l.getD i ' ' = '#') && decide (i + 1 < l.length)).length

/-! ## Helper lemmas -/

open GuessingGame in
lemma get_user_guess_congr (g h : GuessingGame) (hmin : g.min_range = h.min_range)
    (hmax : g.max_range = h.max_range) :
    ∀ l, g.get_user_guess l = h.get_user_guess l := by
  intro l
  induction l with
  | nil => rfl
  | cons a rest ih =>
      cases a with
      | none => simp [get_user_guess, ih]
      | some m => simp [get_user_guess, hmin, hmax, ih]

open GuessingGame in
lemma play_round_bounds (g : GuessingGame) (r : RoundInput) :
    (g.play_round r).min_range = g.min_range ∧
    (g.play_round r).max_range = g.max_range := by
  unfold GuessingGame.play_round
  cases hg : g.get_user_guess r.inputs with
  | none => simp
  | some p => cases p with | mk u m => simp only; split <;> simp

open GuessingGame in
lemma play_round_counters (g : GuessingGame) (r : RoundInput)
    (hc : (g.get_user_guess r.inputs).isSome = true) :
    (g.play_round r).total_games = g.total_games + 1 ∧
    (g.play_round r).wins = g.wins + (if g.roundWon r then 1 else 0) := by
  unfold GuessingGame.play_round GuessingGame.roundWon
  cases hg : g.get_user_guess r.inputs with
  | none => rw [hg] at hc; simp at hc
  | some p =>
      cases p with | mk u m =>
      simp only
      split <;> simp_all

open GuessingGame in
lemma roundWon_congr (g h : GuessingGame) (hmin : g.min_range = h.min_range)
    (hmax : g.max_range = h.max_range) (r : RoundInput) :
    g.roundWon r = h.roundWon r := by
  unfold GuessingGame.roundWon
  rw [get_user_guess_congr g h hmin hmax]
  cases h.get_user_guess r.inputs with
  | none => rfl
  | some p =>
      simp [GuessingGame.check_guess, GuessingGame.generate_random_number, hmin, hmax]

open GuessingGame in
lemma runRounds_spec (rs : List RoundInput) :
    ∀ g : GuessingGame, (∀ r ∈ rs, (g.get_user_guess r.inputs).isSome = true) →
    (g.runRounds rs).total_games = g.total_games + rs.length ∧
    (g.runRounds rs).wins = g.wins + rs.countP (fun r => g.roundWon r) ∧
    (g.runRounds rs).min_range = g.min_range ∧
    (g.runRounds rs).max_range = g.max_range := by
  induction rs with
  | nil => intro g _; simp [GuessingGame.runRounds]
  | cons r rs ih =>
      intro g h
      have hr : (g.get_user_guess r.inputs).isSome = true := h r (by simp)
      have hb := play_round_bounds g r
      have hcnt := play_round_counters g r hr
      have hrest : ∀ r' ∈ rs, ((g.play_round r).get_user_guess r'.inputs).isSome = true := by
        intro r' hm
        rw [get_user_guess_congr (g.play_round r) g hb.1 hb.2]
        exact h r' (by simp [hm])
      have hrec := ih (g.play_round r) hrest
      have hrw : ∀ r' ∈ rs, (g.play_round r).roundWon r' = g.roundWon r' := by
        intro r' _; exact roundWon_congr _ _ hb.1 hb.2 r'
      have hcount : rs.countP (fun r' => (g.play_round r).roundWon r') =
          rs.countP (fun r' => g.roundWon r') :=
        List.countP_congr (fun x hx => by rw [hrw x hx])
      have hfold : g.runRounds (r :: rs) = (g.play_round r).runRounds rs := rfl
      rw [hfold]
      refine ⟨?_, ?_, ?_, ?_⟩
      · rw [hrec.1, hcnt.1]; simp; omega
      · rw [hrec.2.1, hcount, hcnt.2, List.countP_cons]
        by_cases hw : g.roundWon r <;> simp [hw] <;> omega
      · rw [hrec.2.2.1, hb.1]
      · rw [hrec.2.2.2, hb.2]

open GuessingGame in
lemma Inv_play_round (g : GuessingGame) (r : RoundInput) (h : Inv g) :
    Inv (g.play_round r) := by
  unfold GuessingGame.Inv at *
  unfold GuessingGame.play_round
  cases hg : g.get_user_guess r.inputs with
  | none => simpa using h
  | some p =>
      cases p with | mk u m =>
      simp only
      split <;> simp <;> omega

open GuessingGame in
lemma Inv_runRounds (rs : List RoundInput) :
    ∀ g : GuessingGame, Inv g → Inv (g.runRounds rs) := by
  induction rs with
  | nil => intro g h; exact h
  | cons r rs ih =>
      intro g h
      exact ih (g.play_round r) (Inv_play_round g r h)

/-! ## Claims about the Game Engine -/

/-- C1: after any sequence of N completed rounds of which W were won, the
state satisfies `gamesPlayed = N` and `wins = W`, and the invariant
`0 ≤ wins ≤ gamesPlayed` holds initially and is preserved by `play_round`,
`display_statistics` and every branch of the menu dispatch. -/
theorem C1_counters_and_invariant :
    (∀ rs : List GuessingGame.RoundInput,
      (∀ r ∈ rs, GuessingGame.init.roundCompleted r = true) →
      (GuessingGame.init.runRounds rs).total_games = rs.length ∧
      (GuessingGame.init.runRounds rs).wins =
        rs.countP (fun r => GuessingGame.init.roundWon r) ∧
      GuessingGame.Inv (GuessingGame.init.runRounds rs)) ∧
    GuessingGame.Inv GuessingGame.init ∧
    (∀ (g : GuessingGame) (r : GuessingGame.RoundInput),
      GuessingGame.Inv g → GuessingGame.Inv (g.play_round r)) ∧
    (∀ g : GuessingGame,
      GuessingGame.Inv g → GuessingGame.Inv (g.display_statistics).1) ∧
    (∀ (g : GuessingGame) (choice : String) (r : GuessingGame.RoundInput),
      GuessingGame.Inv g → GuessingGame.Inv (g.menuStep choice r).1) := by
  refine ⟨?_, ?_, Inv_play_round, ?_, ?_⟩
  · intro rs h
    have hinit : GuessingGame.Inv GuessingGame.init := by decide
    have hc : ∀ r ∈ rs, (GuessingGame.init.get_user_guess r.inputs).isSome = true := by
      intro r hm
      have := h r hm
      unfold GuessingGame.roundCompleted at this
      exact this
    have hs := runRounds_spec rs GuessingGame.init hc
    refine ⟨?_, ?_, Inv_runRounds rs GuessingGame.init hinit⟩
    · rw [hs.1]; simp [GuessingGame.init]
    · rw [hs.2.1]; simp [GuessingGame.init]
  · decide
  · intro g h; exact h
  · intro g choice r h
    unfold GuessingGame.menuStep
    split_ifs
    · exact Inv_play_round g r h
    · exact h
    · exact h
    · exact h

/-- Witness for C1 at the one-round sequence whose single valid guess is 1. -/
theorem C1_witness :
    (GuessingGame.init.runRounds [⟨0, [some 1]⟩]).total_games =
      ([(⟨0, [some 1]⟩ : GuessingGame.RoundInput)] : List _).length := by
  exact (C1_counters_and_invariant.1 [⟨0, [some 1]⟩] (by decide)).1

/-- C2: the win percentage reported by `display_statistics` is exactly
`wins / gamesPlayed * 100` (rational true division) whenever
`gamesPlayed > 0`, and the literal 0 of the guarding `else` branch when
`gamesPlayed = 0`, so the dividing branch is never taken there. -/
theorem C2_win_percentage (g : GuessingGame) :
    (0 < g.total_games →
      (g.display_statistics).2.winPercentage =
        ((g.wins : ℚ) / (g.total_games : ℚ)) * 100) ∧
    (g.total_games = 0 → (g.display_statistics).2.winPercentage = 0) := by
  constructor <;> intro h <;> simp [GuessingGame.display_statistics, h]

/-- Witness for C2 at the state with 2 games and 1 win. -/
theorem C2_win_percentage_witness :
    ((⟨1, 5, 2, 1⟩ : GuessingGame).display_statistics).2.winPercentage = 50 := by
  have h := (C2_win_percentage ⟨1, 5, 2, 1⟩).1 (by norm_num)
  rw [h]; norm_num

/-- C5: for every guess inside the range, `check_guess` accepts the guess
against itself and rejects it against any different secret. -/
theorem C5_evaluate (g : GuessingGame) (x s : Int)
    (h1 : g.min_range ≤ x) (h2 : x ≤ g.max_range) (hs : s ≠ x) :
    g.check_guess x x = true ∧ g.check_guess x s = false := by
  refine ⟨by simp [GuessingGame.check_guess], ?_⟩
  simp [GuessingGame.check_guess]
  omega

/-- Witness for C5 at guess 3 against secret 4 in the initial range. -/
theorem C5_evaluate_witness :
    GuessingGame.init.check_guess 3 3 = true ∧
    GuessingGame.init.check_guess 3 4 = false :=
  C5_evaluate GuessingGame.init 3 4 (by decide) (by decide) (by decide)

/-- C6: a returned validated guess is always inside `[min_range, max_range]`;
an out-of-range integer re-prompts with the range message, a non-parsing
input re-prompts with the invalid-number message, the two messages are
distinct, and both cases continue with the remaining inputs rather than
failing. -/
theorem C6_validated_guess (g : GuessingGame) :
    (∀ l n msgs, g.get_user_guess l = some (n, msgs) →
      g.min_range ≤ n ∧ n ≤ g.max_range) ∧
    (∀ m rest, ¬(g.min_range ≤ m ∧ m ≤ g.max_range) →
      g.get_user_guess (some m :: rest) =
        (g.get_user_guess rest).map
          (fun r => (r.1, GuessingGame.GuessMsg.outOfRange g.min_range g.max_range :: r.2))) ∧
    (∀ rest, g.get_user_guess (none :: rest) =
      (g.get_user_guess rest).map
        (fun r => (r.1, GuessingGame.GuessMsg.invalidNumber :: r.2))) ∧
    GuessingGame.GuessMsg.outOfRange g.min_range g.max_range ≠
      GuessingGame.GuessMsg.invalidNumber := by
  refine ⟨?_, ?_, ?_, ?_⟩
  · intro l
    induction l with
    | nil => intro n msgs h; simp [GuessingGame.get_user_guess] at h
    | cons a rest ih =>
        intro n msgs h
        cases a with
        | none =>
            simp only [GuessingGame.get_user_guess, Option.map_eq_some'] at h
            obtain ⟨r, hr, heq⟩ := h
            cases r with | mk rn rm =>
            cases heq
            exact ih rn rm hr
        | some m =>
            by_cases hin : g.min_range ≤ m ∧ m ≤ g.max_range
            · simp only [GuessingGame.get_user_guess, if_pos hin] at h
              cases h
              exact hin
            · simp only [GuessingGame.get_user_guess, if_neg hin,
                Option.map_eq_some'] at h
              obtain ⟨r, hr, heq⟩ := h
              cases r with | mk rn rm =>
              cases heq
              exact ih rn rm hr
  · intro m rest hm
    simp [GuessingGame.get_user_guess, hm]
  · intro rest
    simp [GuessingGame.get_user_guess]
  · intro h
    exact GuessingGame.GuessMsg.noConfusion h

/-- Witness for C6: the guess 2 validated from the initial state is inside
the range. -/
theorem C6_validated_guess_witness :
    GuessingGame.init.min_range ≤ 2 ∧ 2 ≤ GuessingGame.init.max_range :=
  (C6_validated_guess GuessingGame.init).1 [some 2] 2 [] (by decide)

/-- C8: every drawn secret lies in `[min_range, max_range]`, for every seed,
whenever the range is nonempty. -/
theorem C8_draw_secret (g : GuessingGame) (seed : Nat)
    (h : g.min_range ≤ g.max_range) :
    g.min_range ≤ g.generate_random_number seed ∧
    g.generate_random_number seed ≤ g.max_range := by
  unfold GuessingGame.generate_random_number
  have hm : (0 : Int) < g.max_range - g.min_range + 1 := by omega
  have h1 : 0 ≤ (seed : Int) % (g.max_range - g.min_range + 1) :=
    Int.emod_nonneg _ (by omega)
  have h2 : (seed : Int) % (g.max_range - g.min_range + 1) <
      g.max_range - g.min_range + 1 := Int.emod_lt_of_pos _ hm
  omega

/-- Witness for C8 at the initial range and seed 7. -/
theorem C8_draw_secret_witness :
    GuessingGame.init.min_range ≤ GuessingGame.init.generate_random_number 7 ∧
    GuessingGame.init.generate_random_number 7 ≤ GuessingGame.init.max_range :=
  C8_draw_secret GuessingGame.init 7 (by decide)

/-- C9: every menu branch other than choice "1" (and `display_statistics`
itself) returns the game state unchanged. -/
theorem C9_frame (g : GuessingGame) (choice : String)
    (r : GuessingGame.RoundInput) (h : choice ≠ "1") :
    (g.menuStep choice r).1 = g ∧ (g.display_statistics).1 = g := by
  refine ⟨?_, rfl⟩
  unfold GuessingGame.menuStep
  rw [if_neg h]
  split_ifs <;> rfl

/-- Witness for C9 at the statistics choice "2". -/
theorem C9_frame_witness :
    (GuessingGame.init.menuStep "2" ⟨0, []⟩).1 = GuessingGame.init ∧
    (GuessingGame.init.display_statistics).1 = GuessingGame.init :=
  C9_frame GuessingGame.init "2" ⟨0, []⟩ (by decide)

/-! ## Helper lemmas for the report builder -/

lemma entryOf_eq_none_of_failed (f : FileInput) (h : f.failed = true) :
    entryOf f = none := by
  cases f with
  | wellformed p c t => simp [FileInput.failed] at h
  | unreadable p => rfl
  | unparsable p c => rfl

lemma parse_python_file_data (data : List FileData) (f : FileInput) :
    (parse_python_file data f).1 = data ++ (entryOf f).toList := by
  cases f <;> simp [parse_python_file, entryOf]

lemma parse_python_file_msgs (data : List FileData) (f : FileInput) :
    (parse_python_file data f).2 = (parse_python_file [] f).2 := by
  cases f <;> rfl

lemma processFiles_data (files : List FileInput) :
    ∀ data, (processFiles data files).1 = data ++ files.filterMap entryOf := by
  induction files with
  | nil => intro data; simp [processFiles]
  | cons f rest ih =>
      intro data
      show (processFiles (parse_python_file data f).1 rest).1 = _
      rw [ih, parse_python_file_data, List.filterMap_cons]
      cases h : entryOf f <;> simp [h]

lemma processFiles_msgs (files : List FileInput) :
    ∀ data, (processFiles data files).2 =
      files.flatMap (fun f => (parse_python_file [] f).2) := by
  induction files with
  | nil => intro data; simp [processFiles]
  | cons f rest ih =>
      intro data
      show (parse_python_file data f).2 ++ (processFiles (parse_python_file data f).1 rest).2 = _
      rw [ih, parse_python_file_msgs, List.flatMap_cons]

/-! ## Claims about the report builder -/

/-- C4: a file whose read or parse fails contributes no record at all to
`comments_data` — the collected data is as if the file were absent — while
an error line naming the file is printed and every other file is still
processed; the embedding is a total function, so the failure is never
fatal. -/
theorem C4_failed_file_skipped (data : List FileData)
    (pre post : List FileInput) (f : FileInput) (h : f.failed = true) :
    (processFiles data (pre ++ f :: post)).1 =
      (processFiles data (pre ++ post)).1 ∧
    ("Error parsing file " ++ f.path) ∈ (processFiles data (pre ++ f :: post)).2 := by
  constructor
  · rw [processFiles_data, processFiles_data, List.filterMap_append,
      List.filterMap_append, List.filterMap_cons, entryOf_eq_none_of_failed f h]
  · rw [processFiles_msgs]
    rw [List.mem_flatMap]
    refine ⟨f, by simp, ?_⟩
    cases f with
    | wellformed p c t => simp [FileInput.failed] at h
    | unreadable p => simp [parse_python_file, FileInput.path]
    | unparsable p c => simp [parse_python_file, FileInput.path]

/-- Witness for C4: an unreadable file between two well-formed ones leaves
the collected data exactly as without it. -/
theorem C4_failed_file_skipped_witness :
    (processFiles [] ([FileInput.wellformed "a.py" [] ⟨[]⟩] ++
        FileInput.unreadable "b.py" :: [FileInput.wellformed "c.py" [] ⟨[]⟩])).1 =
      (processFiles [] ([FileInput.wellformed "a.py" [] ⟨[]⟩] ++
        [FileInput.wellformed "c.py" [] ⟨[]⟩])).1 :=
  (C4_failed_file_skipped [] [FileInput.wellformed "a.py" [] ⟨[]⟩]
    [FileInput.wellformed "c.py" [] ⟨[]⟩] (FileInput.unreadable "b.py") rfl).1

/-- C7: after `generate_documentation` the output path holds exactly the
report rendered from the current run's collected data, whatever was there
before and whether or not the deletion succeeded; a failed deletion of an
existing file is reported with a warning and the write still happens; a
successful deletion removes the old file before the write. -/
theorem C7_overwrite_output (fs : FS) (deleteOk : Bool) (data : List FileData)
    (now output_file : String) :
    (generate_docs fs deleteOk data now output_file).1 output_file =
      some (renderReport now data) ∧
    ((∃ d, fs output_file = some d) → deleteOk = false →
      "Warning: Could not delete old documentation" ∈
        (generate_docs fs deleteOk data now output_file).2) ∧
    ((∃ d, fs output_file = some d) → deleteOk = true →
      (cleanup_old_docs fs deleteOk output_file).1 output_file = none) := by
  refine ⟨by simp [generate_docs], ?_, ?_⟩
  · rintro ⟨d, hd⟩ hD
    simp [generate_docs, cleanup_old_docs, hd, hD]
  · rintro ⟨d, hd⟩ hD
    simp [cleanup_old_docs, hd, hD]

/-- Witness for C7: a pre-existing file at the output path whose deletion
fails still gets overwritten with the current report, after a warning. -/
theorem C7_overwrite_output_witness :
    (generate_docs (fun p => if p = "out.docx" then some [] else none) false []
        "2024-01-01" "out.docx").1 "out.docx" = some (renderReport "2024-01-01" []) ∧
    "Warning: Could not delete old documentation" ∈
      (generate_docs (fun p => if p = "out.docx" then some [] else none) false []
        "2024-01-01" "out.docx").2 := by
  have h := C7_overwrite_output (fun p => if p = "out.docx" then some [] else none)
    false [] "2024-01-01" "out.docx"
  exact ⟨h.1, h.2.1 ⟨[], by simp⟩ rfl⟩

lemma lineComment_eq_none (l : Line) (h : '#' ∉ l) : lineComment l = none := by
  unfold lineComment
  have hf : l.findIdx? (· = '#') = none := by
    rw [List.findIdx?_eq_none_iff]
    intro x hx
    simp only [decide_eq_false_iff_not]
    intro hEq
    exact h (hEq ▸ hx)
  rw [hf]

lemma lineComment_hash_cons (c : Line) (h : c ≠ []) :
    lineComment ('#' :: c) = some c := by
  unfold lineComment
  rw [List.findIdx?_cons]
  simp only [decide_True, if_true]
  have hlen : 0 + 1 < ('#' :: c).length := by
    cases c with
    | nil => exact absurd rfl h
    | cons a t => simp
  rw [if_pos hlen]
  rfl

lemma hash_not_mem_renderDocLine (d : Line) (h : '#' ∉ d) :
    '#' ∉ renderDocLine d := by
  unfold renderDocLine
  simp only [List.mem_cons, List.mem_append]
  push_neg
  refine ⟨by decide, by decide, by decide, h, by decide⟩

/-- C3: extracting from a source text consisting of exactly one module
docstring, one function with a docstring, and two comment lines yields one
module doc entry, one function doc entry and two comment entries; the
comment texts rendered into the report are the captured texts passed
through `str.strip()`, and the docstring texts are cleaned by
`ast.get_docstring`. -/
theorem C3_extraction_counts (f : SrcFile) (path : String)
    (d b name c1 c2 : Line)
    (hf : f = ⟨some d, [SrcItem.funcItem name b, SrcItem.commentItem c1,
      SrcItem.commentItem c2]⟩)
    (hd : '#' ∉ d) (hb : '#' ∉ b) (hn : '#' ∉ name)
    (h1 : c1 ≠ []) (h2 : c2 ≠ []) :
    findComments (renderFile f) = [c1, c2] ∧
    docstringsOf (astOfSrc f) =
      [⟨"Module", "Module".data, pyCleandoc d⟩,
       ⟨"FunctionDef", name, pyCleandoc b⟩] ∧
    (findComments (renderFile f)).length = 2 ∧
    ((docstringsOf (astOfSrc f)).filter (fun e => e.typeName = "Module")).length = 1 ∧
    ((docstringsOf (astOfSrc f)).filter (fun e => e.typeName = "FunctionDef")).length = 1 ∧
    create_comments_section
        [⟨path, findComments (renderFile f), docstringsOf (astOfSrc f)⟩] =
      [DocBlock.heading 1 "4. Code Comments",
       DocBlock.heading 2 ("Comments from " ++ path),
       DocBlock.para ["Comment 1: ", String.mk (pyStrip c1)],
       DocBlock.para ["Comment 2: ", String.mk (pyStrip c2)]] := by
  subst hf
  have hdl : '#' ∉ "def ".data ++ name ++ "():".data := by
    simp only [List.mem_append]
    push_neg
    exact ⟨⟨by decide, hn⟩, by decide⟩
  have hind : '#' ∉ "    ".data ++ renderDocLine b := by
    simp only [List.mem_append]
    push_neg
    exact ⟨by decide, hash_not_mem_renderDocLine b hb⟩
  have hcom : findComments (renderFile
      ⟨some d, [SrcItem.funcItem name b, SrcItem.commentItem c1,
        SrcItem.commentItem c2]⟩) = [c1, c2] := by
    show List.filterMap lineComment
      (renderDocLine d :: ("def ".data ++ name ++ "():".data) ::
        ("    ".data ++ renderDocLine b) :: ('#' :: c1) :: ('#' :: c2) :: []) = _
    rw [List.filterMap_cons, lineComment_eq_none _ (hash_not_mem_renderDocLine d hd)]
    rw [List.filterMap_cons, lineComment_eq_none _ hdl]
    rw [List.filterMap_cons, lineComment_eq_none _ hind]
    rw [List.filterMap_cons, lineComment_hash_cons c1 h1]
    rw [List.filterMap_cons, lineComment_hash_cons c2 h2]
    rfl
  have hdoc : docstringsOf (astOfSrc
      ⟨some d, [SrcItem.funcItem name b, SrcItem.commentItem c1,
        SrcItem.commentItem c2]⟩) =
      [⟨"Module", "Module".data, pyCleandoc d⟩,
       ⟨"FunctionDef", name, pyCleandoc b⟩] := by
    rfl
  refine ⟨hcom, hdoc, by rw [hcom]; rfl, by rw [hdoc]; rfl, by rw [hdoc]; rfl, ?_⟩
  rw [hcom]
  simp only [create_comments_section, List.flatMap_cons, List.flatMap_nil,
    List.isEmpty_cons, List.append_nil, Bool.false_eq_true, if_false]
  have he : ([c1, c2] : List Line).enum = [(0, c1), (1, c2)] := rfl
  rw [he, List.map_cons, List.map_cons, List.map_nil]
  have e1 : "Comment " ++ toString (0 + 1) ++ ": " = "Comment 1: " := rfl
  have e2 : "Comment " ++ toString (1 + 1) ++ ": " = "Comment 2: " := rfl
  rw [e1, e2]

/-- Witness for C3 on a concrete five-line source file. -/
theorem C3_extraction_counts_witness :
    findComments (renderFile ⟨some "Module doc.".data,
      [SrcItem.funcItem "f".data "Does a thing.".data,
       SrcItem.commentItem " first".data,
       SrcItem.commentItem " second".data]⟩) = [" first".data, " second".data] :=
  (C3_extraction_counts _ "guessing_game.py" "Module doc.".data
    "Does a thing.".data "f".data " first".data " second".data rfl
    (by decide) (by decide) (by decide) (by decide) (by decide)).1

/-- C10 counterexample: the line `##x` holds two occurrences of `#` followed
by at least one character, yet the extractor yields a single comment for it
(`re.findall` matches are non-overlapping), so not every such occurrence
becomes a comment entry of its own. -/
theorem C10_counterexample :
    hashOcc "##x".data = 2 ∧ (findComments ["##x".data]).length = 1 ∧
    (findComments ["##x".data]).length ≠ hashOcc "##x".data := by
  decide

/-- C10 (amended): a line yields a comment exactly when it contains some
`#` followed by at least one character — position and surrounding string
or docstring syntax are irrelevant, and a `#` ending the line yields
nothing — and the single comment produced captures everything after the
first such `#`. -/
theorem C10_first_hash_comment (l : Line) :
    ((lineComment l).isSome = true ↔
      ∃ i, i + 1 < l.length ∧ l.getD i ' ' = '#') ∧
    (∀ t, lineComment l = some t →
      ∃ i, i + 1 < l.length ∧ l = l.take i ++ '#' :: t ∧
        '#' ∉ l.take i ∧ t ≠ []) := by
  unfold lineComment
  cases hf : l.findIdx? (· = '#') with
  | none =>
      have hno : ∀ x ∈ l, ¬(x = '#') := by
        have h := List.findIdx?_eq_none_iff.mp hf
        intro x hx
        simpa using h x hx
      constructor
      · simp only [Option.isSome_none, Bool.false_eq_true, false_iff]
        rintro ⟨i, hi, hg⟩
        have hlt : i < l.length := by omega
        rw [List.getD_eq_getElem l ' ' hlt] at hg
        exact hno l[i] (List.getElem_mem hlt) hg
      · intro t ht
        simp at ht
  | some i =>
      have hsome := List.findIdx?_eq_some_iff_findIdx_eq.mp hf
      have hilt : i < l.length := hsome.1
      have hidx : l.findIdx (· = '#') = i := hsome.2
      have hgi : l[i] = '#' := by
        have := @List.findIdx_getElem _ (· = '#') l (by rw [hidx]; exact hilt)
        simpa [hidx] using this
      have hbefore : ∀ j (hj : j < l.length), j < i → l[j] ≠ '#' := by
        intro j hj hji
        have := @List.not_of_lt_findIdx _ (· = '#') l j (by rw [hidx]; exact hji)
        simpa using this
      by_cases hlen : i + 1 < l.length
      · constructor
        · simp only [if_pos hlen, Option.isSome_some, true_iff]
          exact ⟨i, hlen, by rw [List.getD_eq_getElem l ' ' hilt]; exact hgi⟩
        · intro t ht
          simp only [hlen, if_true] at ht
          have hdt : t = l.drop (i + 1) := by
            cases ht
            rfl
          refine ⟨i, hlen, ?_, ?_, ?_⟩
          · rw [hdt]
            conv_lhs => rw [← List.take_append_drop i l]
            rw [List.drop_eq_getElem_cons hilt, hgi]
          · intro hm
            obtain ⟨j, hj, hget⟩ := List.mem_iff_getElem.mp hm
            have hji : j < i := by
              have := hj
              rw [List.length_take] at this
              omega
            rw [List.getElem_take] at hget
            exact hbefore j (by omega) hji hget
          · rw [hdt]
            intro hnil
            have := congrArg List.length hnil
            rw [List.length_drop] at this
            simp at this
            omega
      · constructor
        · simp only [if_neg hlen, Option.isSome_none, Bool.false_eq_true, false_iff]
          rintro ⟨j, hj, hg⟩
          have hjlt : j < l.length := by omega
          rw [List.getD_eq_getElem l ' ' hjlt] at hg
          have hji : j < i := by
            rcases Nat.lt_or_ge j i with h' | h'
            · exact h'
            · omega
          exact hbefore j hjlt hji hg
        · intro t ht
          simp only [hlen, if_false] at ht
          exact Option.noConfusion ht

/-- Witness for the amended C10: on the line `x = "a#b"` (a `#` inside a
string literal) the comment captured is everything after the first `#`. -/
theorem C10_first_hash_comment_witness :
    ∃ i, i + 1 < ("x = \x22a#b\x22".data : Line).length ∧
      "x = \x22a#b\x22".data =
        ("x = \x22a#b\x22".data : Line).take i ++ '#' :: "b\x22".data ∧
      '#' ∉ ("x = \x22a#b\x22".data : Line).take i ∧ "b\x22".data ≠ [] :=
  (C10_first_hash_comment "x = \x22a#b\x22".data).2 "b\x22".data (by decide)
